import Mathlib

/-!
Shallow embedding of the generation request queue from `src/bot/queue.py`:
a bounded FIFO queue with per-submitter cooldown enforcement.

Modelling choices:
- Wall-clock time (`datetime.now(timezone.utc)`) is an effect in the source;
  here each operation that reads the clock takes the current time `now : ℚ`
  as an explicit parameter.  Elapsed-time arithmetic on `float` seconds is
  modelled over `ℚ`.
- The Python `dict[str, datetime]` of last accepted request times is
  modelled as an association list `List (String × ℚ)` with lookup,
  overwrite-insert and (for stating independence properties) erase.
- `QueueItem.request_id` (a freshly generated UUID, used only for external
  correlation) is omitted: no verified property mentions it.
- The `async` markers in the source are vacuous (the methods never await);
  `enqueue` and `dequeue` are plain state-passing functions.
-/

/-- A single pending generation request in the queue (`QueueItem`). -/
structure QueueItem where
  prompt : String
  user : String
  enqueued_at : ℚ
deriving DecidableEq

/-- Outcome of an enqueue attempt (`QueueResult`). -/
structure QueueResult where
  accepted : Bool
  message : String
  position : Option Nat := none
deriving DecidableEq

/-- Outcome of a per-user rate limit check (`RateLimitResult`). -/
structure RateLimitResult where
  allowed : Bool
  retry_after_seconds : Option ℚ := none
deriving DecidableEq

/-- Lookup in the association-list model of `self._last_request_times`. -/
def lookupTime (m : List (String × ℚ)) (u : String) : Option ℚ :=
  match m with
  | [] => none
  | (k, t) :: rest => if k = u then some t else lookupTime rest u

/-- Overwrite-insert, the model of `self._last_request_times[user] = now`. -/
def setTime (m : List (String × ℚ)) (u : String) (t : ℚ) : List (String × ℚ) :=
  match m with
  | [] => [(u, t)]
  | (k, t0) :: rest => if k = u then (k, t) :: rest else (k, t0) :: setTime rest u t

/-- Removal of a key, used only to state independence across submitters. -/
def eraseTime (m : List (String × ℚ)) (u : String) : List (String × ℚ) :=
  match m with
  | [] => []
  | (k, t0) :: rest => if k = u then eraseTime rest u else (k, t0) :: eraseTime rest u

/-- Rounding to the nearest integer with ties to even, the rounding used by
float formatting in the source language. -/
def roundTiesEven (x : ℚ) : ℤ :=
  let f : ℤ := Rat.floor x
  let frac : ℚ := x - f
  if frac < 1/2 then f
  else if 1/2 < frac then f + 1
  else if f % 2 = 0 then f else f + 1

/-- Formatting a non-negative number of seconds to one decimal place, the
model of the format specifier `.1f` used in the rate-limit message. -/
def fmt1 (x : ℚ) : String :=
  let n : ℤ := roundTiesEven (10 * x)
  toString (n / 10) ++ "." ++ toString (n % 10)

/-- State of a `GenerationQueue` instance: configuration fixed at
construction plus the ordered item sequence and the per-submitter map of
last accepted request times. -/
structure GenerationQueue where
  max_size : ℤ
  cooldown_seconds : ℚ
  queue : List QueueItem
  last_request_times : List (String × ℚ)
deriving DecidableEq

namespace GenerationQueue

/-- Constructor `__init__`: stores the configuration unvalidated and starts
with an empty sequence and an empty timestamp map. -/
def init (max_size : ℤ) (cooldown_seconds : ℚ) : GenerationQueue :=
  ⟨max_size, cooldown_seconds, [], []⟩

/-- Method `check_rate_limit`: allowed when the user has no recorded last
request time or the elapsed time has reached the cooldown; otherwise
disallowed with the remaining cooldown. -/
def check_rate_limit (q : GenerationQueue) (now : ℚ) (user : String) :
    RateLimitResult :=
  match lookupTime q.last_request_times user with
  | none => ⟨true, none⟩
  | some last_time =>
    let elapsed := now - last_time
    if elapsed ≥ q.cooldown_seconds then ⟨true, none⟩
    else ⟨false, some (q.cooldown_seconds - elapsed)⟩

/-- Property `depth`: current number of items waiting in the queue. -/
def depth (q : GenerationQueue) : Nat :=
  q.queue.length

/-- Property `is_full`: whether the queue has reached its capacity,
computed as `len(self._queue) >= self._max_size`. -/
def is_full (q : GenerationQueue) : Bool :=
  decide ((q.queue.length : ℤ) ≥ q.max_size)

/-- Property `health_degraded`: the source computes exactly
`len(self._queue) >= self._max_size`. -/
def health_degraded (q : GenerationQueue) : Bool :=
  decide ((q.queue.length : ℤ) ≥ q.max_size)

/-- Method `enqueue`: check the rate limit first, then capacity, then
append the new item and record the submitter's accepted-request time.
Returns the `QueueResult` together with the post-state. -/
def enqueue (q : GenerationQueue) (now : ℚ) (prompt user : String) :
    QueueResult × GenerationQueue :=
  let rl := q.check_rate_limit now user
  if rl.allowed = false then
    (⟨false, "Rate limited. Retry in " ++ fmt1 (rl.retry_after_seconds.getD 0) ++ "s.", none⟩, q)
  else if q.is_full = true then
    (⟨false, "Queue is full.", none⟩, q)
  else
    let item : QueueItem := ⟨prompt, user, now⟩
    let q' : GenerationQueue :=
      { q with queue := q.queue ++ [item],
               last_request_times := setTime q.last_request_times user now }
    (⟨true, "Accepted", some q'.depth⟩, q')

/-- Method `dequeue`: remove and return the head item, or signal emptiness.
Returns the result together with the post-state. -/
def dequeue (q : GenerationQueue) : Option QueueItem × GenerationQueue :=
  match q.queue with
  | [] => (none, q)
  | x :: rest => (some x, { q with queue := rest })

end GenerationQueue

/-- One enqueue call: the clock value at the call plus its arguments. -/
structure EnqueueCall where
  now : ℚ
  prompt : String
  user : String
deriving DecidableEq

/-- The item that an accepted call creates. -/
def mkItem (c : EnqueueCall) : QueueItem :=
  ⟨c.prompt, c.user, c.now⟩

/-- Run a sequence of enqueue calls, collecting the results. -/
def runEnqueues : GenerationQueue → List EnqueueCall → List QueueResult × GenerationQueue
  | q, [] => ([], q)
  | q, c :: cs =>
    let p := q.enqueue c.now c.prompt c.user
    let rest := runEnqueues p.2 cs
    (p.1 :: rest.1, rest.2)

/-- Call dequeue a fixed number of times, collecting the results. -/
def dequeueN : GenerationQueue → Nat → List (Option QueueItem) × GenerationQueue
  | q, 0 => ([], q)
  | q, n + 1 =>
    let p := q.dequeue
    let rest := dequeueN p.2 n
    (p.1 :: rest.1, rest.2)

/-- A read-only call on the queue: one of the pure observation entry
points.  The rate-limit check carries the clock value and the user. -/
inductive ObsCall where
  | depthQ : ObsCall
  | fullQ : ObsCall
  | healthQ : ObsCall
  | rateQ (now : ℚ) (user : String) : ObsCall
deriving DecidableEq

/-- Value returned by an observation. -/
inductive ObsVal where
  | natV (n : Nat) : ObsVal
  | boolV (b : Bool) : ObsVal
  | rateV (r : RateLimitResult) : ObsVal
deriving DecidableEq

/-- Execute one observation, returning its value and the post-state: each
observation method of the source only reads the state. -/
def observe (q : GenerationQueue) : ObsCall → ObsVal × GenerationQueue
  | .depthQ => (.natV q.depth, q)
  | .fullQ => (.boolV q.is_full, q)
  | .healthQ => (.boolV q.health_degraded, q)
  | .rateQ now user => (.rateV (q.check_rate_limit now user), q)

/-- Execute a sequence of observations. -/
def observeAll : GenerationQueue → List ObsCall → List ObsVal × GenerationQueue
  | q, [] => ([], q)
  | q, c :: cs =>
    let p := observe q c
    let rest := observeAll p.2 cs
    (p.1 :: rest.1, rest.2)

/-- Set or remove one submitter's recorded time, used only to state
independence across submitters. -/
def setLastOpt (q : GenerationQueue) (u : String) (t : Option ℚ) : GenerationQueue :=
  { q with last_request_times :=
      match t with
      | none => eraseTime q.last_request_times u
      | some t0 => setTime q.last_request_times u t0 }

/-- Steps of the queue transition system: any enqueue (with any clock value
and arguments) or any dequeue. -/
inductive Reachable (ms : ℤ) (cd : ℚ) : GenerationQueue → Prop where
  | base : Reachable ms cd (GenerationQueue.init ms cd)
  | enq (q : GenerationQueue) (now : ℚ) (prompt user : String) :
      Reachable ms cd q → Reachable ms cd (q.enqueue now prompt user).2
  | deq (q : GenerationQueue) :
      Reachable ms cd q → Reachable ms cd q.dequeue.2

/-- Sample state for the cooldown check: one submitter recorded at time 0,
cooldown of 30 seconds. -/
def rateSampleQueue : GenerationQueue := ⟨10, 30, [], [("alice", 0)]⟩

/-- Sample state that is both full (capacity one, one resident item) and
has a submitter inside the cooldown window. -/
def fullCooldownQueue : GenerationQueue := ⟨1, 30, [⟨"x", "bob", 0⟩], [("alice", 0)]⟩

/-- Sample state with zero capacity: every enqueue is rejected. -/
def zeroCapacityQueue : GenerationQueue := ⟨0, 30, [], []⟩

/-- Sample call sequence: two prompts from two submitters. -/
def fifoCalls : List EnqueueCall := [⟨0, "first", "alice"⟩, ⟨1, "second", "bob"⟩]

/-- Sample reachable state at capacity: one accepted enqueue on a queue of
capacity one. -/
def fullReachedQueue : GenerationQueue :=
  ((GenerationQueue.init 1 0).enqueue 0 "a" "alice").2

open GenerationQueue

/-- Lookup after overwriting a different key is unchanged. -/
theorem lookupTime_setTime_ne (m : List (String × ℚ)) (u v : String) (t : ℚ)
    (h : u ≠ v) : lookupTime (setTime m u t) v = lookupTime m v := by
  induction m with
  | nil => simp [setTime, lookupTime, h]
  | cons p rest ih =>
    obtain ⟨k, t0⟩ := p
    by_cases hk : k = u
    · subst hk
      simp [setTime, lookupTime, h]
    · by_cases hkv : k = v <;> simp [setTime, lookupTime, hk, hkv, ih, Ne.symm h]

/-- Lookup after erasing a different key is unchanged. -/
theorem lookupTime_eraseTime_ne (m : List (String × ℚ)) (u v : String)
    (h : u ≠ v) : lookupTime (eraseTime m u) v = lookupTime m v := by
  induction m with
  | nil => simp [eraseTime, lookupTime]
  | cons p rest ih =>
    obtain ⟨k, t0⟩ := p
    by_cases hk : k = u
    · subst hk
      simp [eraseTime, lookupTime, h, ih]
    · by_cases hkv : k = v <;> simp [eraseTime, lookupTime, hk, hkv, ih, Ne.symm h]

/-- Unfolding of enqueue in the rate-limited branch. -/
theorem enqueue_of_not_allowed (q : GenerationQueue) (now : ℚ) (prompt user : String)
    (h : (q.check_rate_limit now user).allowed = false) :
    q.enqueue now prompt user =
      (⟨false, "Rate limited. Retry in " ++
          fmt1 ((q.check_rate_limit now user).retry_after_seconds.getD 0) ++ "s.", none⟩, q) := by
  simp [GenerationQueue.enqueue, h]

/-- Unfolding of enqueue in the at-capacity branch. -/
theorem enqueue_of_allowed_full (q : GenerationQueue) (now : ℚ) (prompt user : String)
    (h1 : (q.check_rate_limit now user).allowed = true) (h2 : q.is_full = true) :
    q.enqueue now prompt user = (⟨false, "Queue is full.", none⟩, q) := by
  simp [GenerationQueue.enqueue, h1, h2]

/-- Unfolding of enqueue in the accepting branch. -/
theorem enqueue_of_allowed_not_full (q : GenerationQueue) (now : ℚ) (prompt user : String)
    (h1 : (q.check_rate_limit now user).allowed = true) (h2 : q.is_full = false) :
    q.enqueue now prompt user =
      (⟨true, "Accepted", some (q.queue.length + 1)⟩,
       { q with queue := q.queue ++ [⟨prompt, user, now⟩],
                last_request_times := setTime q.last_request_times user now }) := by
  simp [GenerationQueue.enqueue, h1, h2, GenerationQueue.depth]

/-- Case analysis on the post-state of one enqueue call: either the call is
rejected and the state is untouched, or the queue was not full and the item
is appended with the submitter time recorded. -/
theorem enqueue_state_cases (q : GenerationQueue) (now : ℚ) (prompt user : String) :
    (q.enqueue now prompt user).2 = q ∨
    (q.is_full = false ∧
      (q.enqueue now prompt user).2 =
        { q with queue := q.queue ++ [⟨prompt, user, now⟩],
                 last_request_times := setTime q.last_request_times user now }) := by
  cases hA : (q.check_rate_limit now user).allowed with
  | false => exact Or.inl (by rw [enqueue_of_not_allowed q now prompt user hA])
  | true =>
    cases hF : q.is_full with
    | true => exact Or.inl (by rw [enqueue_of_allowed_full q now prompt user hA hF])
    | false =>
      exact Or.inr ⟨rfl, by rw [enqueue_of_allowed_not_full q now prompt user hA hF]⟩

/-- An accepted enqueue call passed both checks and appended the item. -/
theorem enqueue_accepted_eq (q : GenerationQueue) (now : ℚ) (prompt user : String)
    (h : (q.enqueue now prompt user).1.accepted = true) :
    (q.check_rate_limit now user).allowed = true ∧ q.is_full = false ∧
    q.enqueue now prompt user =
      (⟨true, "Accepted", some (q.queue.length + 1)⟩,
       { q with queue := q.queue ++ [⟨prompt, user, now⟩],
                last_request_times := setTime q.last_request_times user now }) := by
  cases hA : (q.check_rate_limit now user).allowed with
  | false => rw [enqueue_of_not_allowed q now prompt user hA] at h; simp at h
  | true =>
    cases hF : q.is_full with
    | true => rw [enqueue_of_allowed_full q now prompt user hA hF] at h; simp at h
    | false => exact ⟨rfl, rfl, enqueue_of_allowed_not_full q now prompt user hA hF⟩

/-- A rejected enqueue call leaves the state untouched. -/
theorem enqueue_rejected_state (q : GenerationQueue) (now : ℚ) (prompt user : String)
    (h : (q.enqueue now prompt user).1.accepted = false) :
    (q.enqueue now prompt user).2 = q := by
  cases hA : (q.check_rate_limit now user).allowed with
  | false => rw [enqueue_of_not_allowed q now prompt user hA]
  | true =>
    cases hF : q.is_full with
    | true => rw [enqueue_of_allowed_full q now prompt user hA hF]
    | false => rw [enqueue_of_allowed_not_full q now prompt user hA hF] at h; simp at h

/-- Dequeue on an empty queue signals emptiness and keeps the state. -/
theorem dequeue_nil (q : GenerationQueue) (h : q.queue = []) : q.dequeue = (none, q) := by
  simp [GenerationQueue.dequeue, h]

/-- Dequeue on a non-empty queue pops the head. -/
theorem dequeue_cons (q : GenerationQueue) (x : QueueItem) (rest : List QueueItem)
    (h : q.queue = x :: rest) :
    q.dequeue = (some x, { q with queue := rest }) := by
  simp [GenerationQueue.dequeue, h]

/-- Dequeue never changes the configuration or the timestamp map, and never
grows the sequence. -/
theorem dequeue_frame (q : GenerationQueue) :
    q.dequeue.2.max_size = q.max_size ∧
    q.dequeue.2.cooldown_seconds = q.cooldown_seconds ∧
    q.dequeue.2.last_request_times = q.last_request_times ∧
    q.dequeue.2.queue.length ≤ q.queue.length := by
  cases h : q.queue with
  | nil => rw [dequeue_nil q h]; exact ⟨rfl, rfl, rfl, by simp [h]⟩
  | cons x rest =>
    rw [dequeue_cons q x rest h]
    exact ⟨rfl, rfl, rfl, by simp⟩

/-- Configuration established at construction is preserved by every step,
and the capacity bound holds in every reachable state. -/
theorem reachable_config_and_capacity (ms : ℤ) (cd : ℚ) (q : GenerationQueue)
    (hms : 0 < ms) (hr : Reachable ms cd q) :
    q.max_size = ms ∧ (q.queue.length : ℤ) ≤ ms := by
  induction hr with
  | base => exact ⟨rfl, by simp [GenerationQueue.init]; omega⟩
  | enq q' now prompt user hr ih =>
    rcases enqueue_state_cases q' now prompt user with h | ⟨hF, h⟩
    · rw [h]; exact ih
    · rw [h]
      have hF' : ¬ (q'.max_size ≤ (q'.queue.length : ℤ)) := by
        simpa [GenerationQueue.is_full] using hF
      refine ⟨ih.1, ?_⟩
      have h1 := ih.1
      simp only [List.length_append, List.length_cons, List.length_nil]
      push_cast
      omega
  | deq q' hr ih =>
    obtain ⟨h1, h2, h3, h4⟩ := dequeue_frame q'
    refine ⟨by rw [h1, ih.1], ?_⟩
    have := ih.2
    omega

/-- Appending accepted calls extends the sequence in call order. -/
theorem runEnqueues_queue_of_accepted (calls : List EnqueueCall) :
    ∀ q : GenerationQueue,
      (∀ r ∈ (runEnqueues q calls).1, r.accepted = true) →
      (runEnqueues q calls).2.queue = q.queue ++ calls.map mkItem := by
  induction calls with
  | nil => intro q _; simp [runEnqueues]
  | cons c cs ih =>
    intro q h
    simp only [runEnqueues] at h ⊢
    have hhead : (q.enqueue c.now c.prompt c.user).1.accepted = true :=
      h _ (List.mem_cons_self _ _)
    have htail := fun r hr => h r (List.mem_cons_of_mem _ hr)
    have hq := (enqueue_accepted_eq q c.now c.prompt c.user hhead).2.2
    rw [ih _ htail, hq]
    simp [mkItem]

/-- Dequeuing exactly the current length drains the queue in order. -/
theorem dequeueN_drain (l : List QueueItem) :
    ∀ q : GenerationQueue, q.queue = l →
      dequeueN q l.length = (l.map some, { q with queue := [] }) := by
  induction l with
  | nil =>
    intro q h
    simp only [List.length_nil, List.map_nil, dequeueN]
    rw [← h]
  | cons x xs ih =>
    intro q h
    simp only [List.length_cons, List.map_cons, dequeueN]
    rw [dequeue_cons q x xs h, ih { q with queue := xs } rfl]

/-- C1: for every sequence of accepted enqueue calls on a queue whose item
sequence starts empty, with no interleaved dequeues, dequeuing once per
call returns exactly the created items in acceptance order and drains the
queue. -/
theorem fifo_order (q0 : GenerationQueue) (calls : List EnqueueCall)
    (h0 : q0.queue = [])
    (hacc : ∀ r ∈ (runEnqueues q0 calls).1, r.accepted = true) :
    (dequeueN (runEnqueues q0 calls).2 calls.length).1 =
      calls.map (fun c => some (mkItem c)) ∧
    (dequeueN (runEnqueues q0 calls).2 calls.length).2.queue = [] := by
  have hq : (runEnqueues q0 calls).2.queue = calls.map mkItem := by
    rw [runEnqueues_queue_of_accepted calls q0 hacc, h0]
    simp
  have hlen : calls.length = (calls.map mkItem).length := by simp
  have hd := dequeueN_drain (calls.map mkItem) (runEnqueues q0 calls).2 hq
  rw [hlen, hd]
  constructor
  · simp [List.map_map, Function.comp]
  · rfl

/-- C2: in every reachable state of a queue constructed with positive
max size, the depth never exceeds the capacity; and an enqueue attempted
at depth equal to the capacity whose cooldown check passes is rejected
with the full-queue message and an unchanged state. -/
theorem capacity_invariant (ms : ℤ) (cd : ℚ) (q : GenerationQueue)
    (hms : 0 < ms) (hr : Reachable ms cd q) :
    (q.depth : ℤ) ≤ ms ∧
    ∀ now prompt user, (q.depth : ℤ) = q.max_size →
      (q.check_rate_limit now user).allowed = true →
      q.enqueue now prompt user = (⟨false, "Queue is full.", none⟩, q) := by
  obtain ⟨hcfg, hlen⟩ := reachable_config_and_capacity ms cd q hms hr
  refine ⟨hlen, ?_⟩
  intro now prompt user hdepth hallow
  have hF : q.is_full = true := by
    simp only [GenerationQueue.depth] at hdepth
    simp only [GenerationQueue.is_full, ge_iff_le, decide_eq_true_eq]
    omega
  exact enqueue_of_allowed_full q now prompt user hallow hF

/-- Branch lemma: no recorded time means the request is allowed. -/
theorem check_rate_limit_none (q : GenerationQueue) (now : ℚ) (user : String)
    (h : lookupTime q.last_request_times user = none) :
    q.check_rate_limit now user = ⟨true, none⟩ := by
  simp [GenerationQueue.check_rate_limit, h]

/-- Branch lemma: elapsed time at or past the cooldown is allowed. -/
theorem check_rate_limit_ge (q : GenerationQueue) (now : ℚ) (user : String) (t : ℚ)
    (h1 : lookupTime q.last_request_times user = some t)
    (h2 : q.cooldown_seconds ≤ now - t) :
    q.check_rate_limit now user = ⟨true, none⟩ := by
  simp [GenerationQueue.check_rate_limit, h1, h2]

/-- Branch lemma: elapsed time inside the cooldown is disallowed with the
remaining wait. -/
theorem check_rate_limit_lt (q : GenerationQueue) (now : ℚ) (user : String) (t : ℚ)
    (h1 : lookupTime q.last_request_times user = some t)
    (h2 : now - t < q.cooldown_seconds) :
    q.check_rate_limit now user = ⟨false, some (q.cooldown_seconds - (now - t))⟩ := by
  simp [GenerationQueue.check_rate_limit, h1, not_le.mpr h2]

/-- C3: the rate limit check allows a submitter with no recorded last
accepted time; otherwise it allows exactly when the elapsed time reaches
the cooldown (the boundary case is allowed), and otherwise rejects with a
strictly positive remaining wait equal to cooldown minus elapsed. -/
theorem check_rate_limit_correct (q : GenerationQueue) (now : ℚ) (user : String) :
    (lookupTime q.last_request_times user = none →
      q.check_rate_limit now user = ⟨true, none⟩) ∧
    ∀ t, lookupTime q.last_request_times user = some t →
      (q.cooldown_seconds ≤ now - t → q.check_rate_limit now user = ⟨true, none⟩) ∧
      (now - t < q.cooldown_seconds →
        q.check_rate_limit now user = ⟨false, some (q.cooldown_seconds - (now - t))⟩ ∧
        0 < q.cooldown_seconds - (now - t)) := by
  refine ⟨check_rate_limit_none q now user, fun t ht => ⟨check_rate_limit_ge q now user t ht, ?_⟩⟩
  intro hlt
  exact ⟨check_rate_limit_lt q now user t ht hlt, by linarith⟩

/-- C3 witness: a submitter recorded at time 0 with a 30 second cooldown,
checked at time 5, is rejected with 25 seconds remaining. -/
theorem check_rate_limit_correct_witness :
    rateSampleQueue.check_rate_limit 5 "alice" = ⟨false, some ((30 : ℚ) - (5 - 0))⟩ ∧
    (0 : ℚ) < 30 - (5 - 0) :=
  ((check_rate_limit_correct rateSampleQueue 5 "alice").2 0 rfl).2 (by norm_num [rateSampleQueue])

/-- C4: a call from a submitter inside the cooldown window is rejected
with the rate limit message embedding the remaining wait formatted to one
decimal place, with no position and an untouched state, with no hypothesis
on capacity: the cooldown check precedes the capacity check. -/
theorem rate_limit_before_capacity (q : GenerationQueue) (now : ℚ) (prompt user : String)
    (t : ℚ) (hl : lookupTime q.last_request_times user = some t)
    (hc : now - t < q.cooldown_seconds) :
    q.enqueue now prompt user =
      (⟨false, "Rate limited. Retry in " ++
          fmt1 (q.cooldown_seconds - (now - t)) ++ "s.", none⟩, q) := by
  have hcrl := check_rate_limit_lt q now user t hl hc
  have hA : (q.check_rate_limit now user).allowed = false := by rw [hcrl]
  rw [enqueue_of_not_allowed q now prompt user hA, hcrl]
  rfl

/-- C4 witness: a full queue of capacity one whose submitter alice is 17.7
seconds into a 30 second cooldown answers with the rate limit message, not
the full message. -/
theorem rate_limit_before_capacity_witness :
    fullCooldownQueue.enqueue (177/10) "p" "alice" =
      (⟨false, "Rate limited. Retry in 12.3s.", none⟩, fullCooldownQueue) := by
  have h := rate_limit_before_capacity fullCooldownQueue (177/10) "p" "alice" 0 rfl
    (by norm_num [fullCooldownQueue])
  have hf : fmt1 ((30 : ℚ) - (177/10 - 0)) = "12.3" := by
    norm_num [fmt1, roundTiesEven, Rat.floor]
    decide
  rw [h, show fullCooldownQueue.cooldown_seconds = 30 from rfl, hf]
  rfl

/-- C5: every accepted enqueue returns accepted, the message Accepted, and
a position equal to the sequence length immediately after the append; the
item is appended at the tail, so that position is its 1-based rank from
the head. -/
theorem accepted_position (q : GenerationQueue) (now : ℚ) (prompt user : String)
    (h : (q.enqueue now prompt user).1.accepted = true) :
    (q.enqueue now prompt user).1 =
      ⟨true, "Accepted", some ((q.enqueue now prompt user).2.queue.length)⟩ ∧
    (q.enqueue now prompt user).2.queue = q.queue ++ [⟨prompt, user, now⟩] := by
  have hq := (enqueue_accepted_eq q now prompt user h).2.2
  rw [hq]
  exact ⟨by simp, rfl⟩

/-- C5 witness: the first accepted enqueue on a fresh queue gets
position 1 and lands at the head. -/
theorem accepted_position_witness :
    ((GenerationQueue.init 10 30).enqueue 0 "fire sword girl" "alice").1 =
      ⟨true, "Accepted",
        some (((GenerationQueue.init 10 30).enqueue 0 "fire sword girl" "alice").2.queue.length)⟩ ∧
    ((GenerationQueue.init 10 30).enqueue 0 "fire sword girl" "alice").2.queue =
      [⟨"fire sword girl", "alice", 0⟩] := by
  have h := accepted_position (GenerationQueue.init 10 30) 0 "fire sword girl" "alice" (by decide)
  exact ⟨h.1, by rw [h.2]; rfl⟩

/-- C6: every rejected enqueue, for cooldown or for capacity, leaves both
the item sequence and the submitter timestamp map exactly as they were. -/
theorem rejected_leaves_state (q : GenerationQueue) (now : ℚ) (prompt user : String)
    (h : (q.enqueue now prompt user).1.accepted = false) :
    (q.enqueue now prompt user).2.queue = q.queue ∧
    (q.enqueue now prompt user).2.last_request_times = q.last_request_times := by
  rw [enqueue_rejected_state q now prompt user h]
  exact ⟨rfl, rfl⟩

/-- C6 witness: a capacity rejection on a zero-capacity queue mutates
nothing. -/
theorem rejected_leaves_state_witness :
    (zeroCapacityQueue.enqueue 0 "p" "alice").2.queue = zeroCapacityQueue.queue ∧
    (zeroCapacityQueue.enqueue 0 "p" "alice").2.last_request_times =
      zeroCapacityQueue.last_request_times :=
  rejected_leaves_state zeroCapacityQueue 0 "p" "alice" (by decide)

/-- C7: the degraded health signal coincides with the full signal in every
state: the implemented policy is at-capacity, not an 80 percent fill
ratio. -/
theorem health_degraded_eq_is_full (q : GenerationQueue) :
    q.health_degraded = q.is_full := rfl

/-- Each observation leaves the state untouched. -/
theorem observe_state_eq (q : GenerationQueue) (c : ObsCall) : (observe q c).2 = q := by
  cases c <;> rfl

/-- C8: any sequence of depth, full, health or rate limit observations
leaves the state unchanged and each observation returns the value
determined by the initial state. -/
theorem observations_pure (q : GenerationQueue) (calls : List ObsCall) :
    observeAll q calls = (calls.map (fun c => (observe q c).1), q) := by
  induction calls with
  | nil => rfl
  | cons c cs ih => simp only [observeAll, observe_state_eq, ih, List.map_cons]

/-- Setting or removing a submitter's recorded time keeps the sequence. -/
theorem setLastOpt_queue (q : GenerationQueue) (u : String) (t : Option ℚ) :
    (setLastOpt q u t).queue = q.queue := by
  cases t <;> rfl

/-- Setting or removing a submitter's recorded time keeps the cooldown. -/
theorem setLastOpt_cooldown (q : GenerationQueue) (u : String) (t : Option ℚ) :
    (setLastOpt q u t).cooldown_seconds = q.cooldown_seconds := by
  cases t <;> rfl

/-- Setting or removing a submitter's recorded time keeps the capacity. -/
theorem setLastOpt_max (q : GenerationQueue) (u : String) (t : Option ℚ) :
    (setLastOpt q u t).max_size = q.max_size := by
  cases t <;> rfl

/-- Lookup of a different submitter is unchanged by setLastOpt. -/
theorem setLastOpt_lookup_ne (q : GenerationQueue) (u v : String) (t : Option ℚ)
    (h : u ≠ v) :
    lookupTime (setLastOpt q u t).last_request_times v =
      lookupTime q.last_request_times v := by
  cases t with
  | none => exact lookupTime_eraseTime_ne _ _ _ h
  | some t0 => exact lookupTime_setTime_ne _ _ _ _ h

/-- The rate limit check only reads the cooldown and the submitter's own
map entry. -/
theorem check_rate_limit_map_ext (q1 q2 : GenerationQueue) (now : ℚ) (v : String)
    (hcd : q1.cooldown_seconds = q2.cooldown_seconds)
    (hlk : lookupTime q1.last_request_times v = lookupTime q2.last_request_times v) :
    q1.check_rate_limit now v = q2.check_rate_limit now v := by
  simp only [GenerationQueue.check_rate_limit, hlk, hcd]

/-- C9: the cooldown state recorded for submitter u, whatever it is set to
or whether it is removed, never changes the rate limit result or the
enqueue result for a different submitter v. -/
theorem submitter_independence (q : GenerationQueue) (u v : String) (huv : u ≠ v)
    (t : Option ℚ) (now : ℚ) (prompt : String) :
    (setLastOpt q u t).check_rate_limit now v = q.check_rate_limit now v ∧
    ((setLastOpt q u t).enqueue now prompt v).1 = (q.enqueue now prompt v).1 := by
  have hcrl : (setLastOpt q u t).check_rate_limit now v = q.check_rate_limit now v :=
    check_rate_limit_map_ext _ _ now v (setLastOpt_cooldown q u t)
      (setLastOpt_lookup_ne q u v t huv)
  refine ⟨hcrl, ?_⟩
  have hfull : (setLastOpt q u t).is_full = q.is_full := by
    simp [GenerationQueue.is_full, setLastOpt_queue, setLastOpt_max]
  cases hA : (q.check_rate_limit now v).allowed with
  | false =>
    rw [enqueue_of_not_allowed q now prompt v hA,
        enqueue_of_not_allowed _ now prompt v (by rw [hcrl]; exact hA), hcrl]
  | true =>
    cases hF : q.is_full with
    | true =>
      rw [enqueue_of_allowed_full q now prompt v hA hF,
          enqueue_of_allowed_full _ now prompt v (by rw [hcrl]; exact hA)
            (by rw [hfull]; exact hF)]
    | false =>
      rw [enqueue_of_allowed_not_full q now prompt v hA hF,
          enqueue_of_allowed_not_full _ now prompt v (by rw [hcrl]; exact hA)
            (by rw [hfull]; exact hF)]
      simp [setLastOpt_queue]

/-- C9 witness: recording a time for alice changes nothing in bob's
admission. -/
theorem submitter_independence_witness :
    (setLastOpt (GenerationQueue.init 10 30) "alice" (some 0)).check_rate_limit 5 "bob" =
      (GenerationQueue.init 10 30).check_rate_limit 5 "bob" ∧
    ((setLastOpt (GenerationQueue.init 10 30) "alice" (some 0)).enqueue 5 "p" "bob").1 =
      ((GenerationQueue.init 10 30).enqueue 5 "p" "bob").1 :=
  submitter_independence (GenerationQueue.init 10 30) "alice" "bob" (by decide) (some 0) 5 "p"

/-- C10: the constructor stores the capacity unvalidated; with a
non-positive max size the queue reports full even when empty, and every
enqueue whose cooldown check passes is rejected with the full-queue
message, so no item is ever admitted. -/
theorem nonpositive_max_size_blocks (q : GenerationQueue) (h : q.max_size ≤ 0) :
    q.is_full = true ∧
    ∀ now prompt user, (q.check_rate_limit now user).allowed = true →
      q.enqueue now prompt user = (⟨false, "Queue is full.", none⟩, q) := by
  have hF : q.is_full = true := by
    simp only [GenerationQueue.is_full, ge_iff_le, decide_eq_true_eq]
    omega
  exact ⟨hF, fun now prompt user hA => enqueue_of_allowed_full q now prompt user hA hF⟩

/-- C10 witness: a queue constructed with max size -5 is full while empty
and rejects a first-time submitter with the full-queue message. -/
theorem nonpositive_max_size_blocks_witness :
    (GenerationQueue.init (-5) 30).is_full = true ∧
    (GenerationQueue.init (-5) 30).enqueue 0 "p" "alice" =
      (⟨false, "Queue is full.", none⟩, GenerationQueue.init (-5) 30) := by
  have h := nonpositive_max_size_blocks (GenerationQueue.init (-5) 30) (by decide)
  exact ⟨h.1, h.2 0 "p" "alice" (by decide)⟩

/-- C1 witness: two accepted calls dequeue in submission order and drain
the queue. -/
theorem fifo_order_witness :
    (dequeueN (runEnqueues (GenerationQueue.init 10 30) fifoCalls).2 fifoCalls.length).1 =
      [some ⟨"first", "alice", 0⟩, some ⟨"second", "bob", 1⟩] ∧
    (dequeueN (runEnqueues (GenerationQueue.init 10 30) fifoCalls).2 fifoCalls.length).2.queue
      = [] := by
  have h := fifo_order (GenerationQueue.init 10 30) fifoCalls rfl (by decide)
  exact h

/-- C2 witness: after one accepted enqueue on a capacity-one queue the
depth is at the bound and a cooldown-passing enqueue is rejected as
full. -/
theorem capacity_invariant_witness :
    ((fullReachedQueue.depth : ℤ) ≤ 1) ∧
    fullReachedQueue.enqueue 1 "b" "bob" =
      (⟨false, "Queue is full.", none⟩, fullReachedQueue) := by
  have hr : Reachable 1 0 fullReachedQueue :=
    Reachable.enq _ 0 "a" "alice" Reachable.base
  have h := capacity_invariant 1 0 fullReachedQueue (by norm_num) hr
  exact ⟨h.1, h.2 1 "b" "bob" (by decide) (by decide)⟩
